import Mathlib

/-!
Shallow embedding of the "Coins of Bengal" catalog application
(`src/main.py`).  Python strings are modelled as Lean `String`s and,
where character-level reasoning is needed, as their `List Char`
contents; pandas numeric cells are modelled as `ℚ` (floats in the data
carry no NaN after the fill step, and only ordering and equality are
used); fallible Python code (code that can raise `ValueError`) is
modelled with `Option`/`Except`.  Streamlit calls (`st.error`,
widgets) are side effects: an error report is modelled as a `Bool`
flag where a claim mentions it, and filter-widget selections are
passed in explicitly as a `Criteria` value.
-/

/-! ## Python string primitives -/

/-- `str.lower()` of a Python string, as a character list.
Filenames and tokens in this repository are ASCII, where
`Char.toLower` agrees with Python `str.lower()`. -/
def lowerChars (s : String) : List Char :=
  s.toList.map Char.toLower

/-- Substring containment, Python's `needle in hay`. -/
def hasSub (needle : List Char) : List Char → Bool
  | [] => needle.isEmpty
  | c :: rest => needle.isPrefixOf (c :: rest) || hasSub needle rest

/-- First token of `x.split('–')` (split on the en-dash): the
characters before the first en-dash, or the whole string when no
en-dash occurs. -/
def firstTok (s : String) : List Char :=
  s.toList.takeWhile (fun c => c ≠ '–')

/-- Numeric value of a digit list, most significant first. -/
def digitsVal (l : List Char) : Nat :=
  l.foldl (fun a c => a * 10 + (c.toNat - 48)) 0

/-- Python `int(str)`: optional surrounding whitespace, an optional
sign, then a non-empty run of decimal digits; anything else raises
`ValueError`, modelled as `none`.  (Python additionally accepts
underscore digit separators and non-ASCII decimal digits; no value in
this dataset or in the claims uses either.) -/
def pyIntChars (l : List Char) : Option Int :=
  let t := (l.dropWhile Char.isWhitespace).reverse.dropWhile Char.isWhitespace |>.reverse
  match t with
  | '-' :: rest =>
      if rest ≠ [] ∧ rest.all Char.isDigit then some (-(digitsVal rest : Int)) else none
  | '+' :: rest =>
      if rest ≠ [] ∧ rest.all Char.isDigit then some (digitsVal rest : Int) else none
  | _ =>
      if t ≠ [] ∧ t.all Char.isDigit then some (digitsVal t : Int) else none

/-- Python `int` applied to a whole string. -/
def pyIntOfString (s : String) : Option Int :=
  pyIntChars s.toList

/-- `pd.to_numeric(_, errors="coerce")` on one cell: parse a decimal
number (optional sign, optional fractional part), `none` (NaN) when
the cell does not parse.  (Scientific notation is also accepted by
pandas; no claim depends on it.) -/
def parseNum (s : String) : Option ℚ :=
  let t := (s.toList.dropWhile Char.isWhitespace).reverse.dropWhile Char.isWhitespace |>.reverse
  let core := fun (u : List Char) =>
    match u.splitOn '.' with
    | [ip] => if ip ≠ [] ∧ ip.all Char.isDigit then some ((digitsVal ip : ℚ)) else none
    | [ip, fp] =>
        if (ip ≠ [] ∨ fp ≠ []) ∧ ip.all Char.isDigit ∧ fp.all Char.isDigit then
          some ((digitsVal ip : ℚ) + (digitsVal fp : ℚ) / ((10 : ℚ) ^ fp.length))
        else none
    | _ => none
  match t with
  | '-' :: rest => (core rest).map (fun q => -q)
  | '+' :: rest => core rest
  | _ => core t

/-! ## Data model: cell values, raw rows, records (`load_data`) -/

/-- A pandas cell as seen by `convert_to_gregorian`: either a number
(already numeric in the frame) or a string. -/
inductive PyVal where
  | vInt : Int → PyVal
  | vStr : String → PyVal
deriving DecidableEq, Repr

/-- Python `int(_)` on a cell value. -/
def pyIntOfVal : PyVal → Option Int
  | .vInt n => some n
  | .vStr s => pyIntOfString s

/-- `convert_to_gregorian` from `load_data` (src/main.py:119-126):
`year = int(year)`; if the integer is `< 1202` return `year + 622`,
otherwise return the integer; on `ValueError` return `"Unknown"`. -/
def convert_to_gregorian (year : PyVal) : PyVal :=
  match pyIntOfVal year with
  | some n => if n < 1202 then .vInt (n + 622) else .vInt n
  | none => .vStr "Unknown"

/-- One raw CSV row after column renaming: `none` models a missing
(NaN) cell.  `Weight (g)` and `Dimension (mm)` arrive as text cells
for `pd.to_numeric`; `Date of Issue` may already be numeric. -/
structure RawRow where
  coinNo : String
  ruler : Option String
  reign : Option String
  metal : Option String
  mint : Option String
  weight : Option String
  dimension : Option String
  date : Option PyVal
deriving Repr

/-- A loaded record (one row of the cleaned dataframe). -/
structure Record where
  coinNo : String
  ruler : String
  reign : String
  metal : String
  mint : String
  weight : ℚ
  dimension : ℚ
  dateOfIssue : PyVal
deriving DecidableEq, Repr

/-- The per-row cleaning performed by `load_data`
(src/main.py:110-129): numeric columns go through
`pd.to_numeric(errors="coerce")` then `fillna(0)`; the categorical
columns (including `Date of Issue`) go through `fillna("Unknown")`;
finally `convert_to_gregorian` is applied to `Date of Issue`. -/
def load_row (r : RawRow) : Record :=
  { coinNo := r.coinNo
    ruler := r.ruler.getD "Unknown"
    reign := r.reign.getD "Unknown"
    metal := r.metal.getD "Unknown"
    mint := r.mint.getD "Unknown"
    weight := ((r.weight.bind parseNum).getD 0)
    dimension := ((r.dimension.bind parseNum).getD 0)
    dateOfIssue := convert_to_gregorian (r.date.getD (.vStr "Unknown")) }

/-- `load_data` row processing over the whole table.  The Kaggle
download, CSV parsing and `st.cache_data` memoization are I/O and are
outside the embedding; the dataframe is the list of its rows. -/
def load_data (rows : List RawRow) : List Record :=
  rows.map load_row

/-! ## Image indexer (`match_images`, src/main.py:152-170) -/

/-- `ImageEntry`: the `{"front": ..., "back": ...}` value stored per
identifier; `none` models Python `None`. -/
structure ImageEntry where
  front : Option String
  back : Option String
deriving DecidableEq, Repr

/-- `os.path.join(folder, name)` on POSIX paths with a non-empty
relative `name`, as used by `match_images`. -/
def pathJoin (folder name : String) : String :=
  folder ++ "/" ++ name

/-- The anchored regex `(\d+\.\d+)[_\s-]*.*\.webp$` with
`re.IGNORECASE`, returning `group(1)` when the filename matches.
Since `[_\s-]*.*` matches any run of characters, the regex accepts a
filename exactly when it starts with `digits '.' digits` and the
remainder after the greedy group ends with `.webp` (case-insensitively);
because the group ends in a digit it cannot overlap a terminal
`.webp`, so the suffix test on the whole lowered filename is
equivalent.  `group(1)` is the maximal digit run, the dot, and the
maximal following digit run, exactly as the greedy `\d+\.\d+`
matches. -/
def extractId (filename : String) : Option String :=
  let cs := filename.toList
  let ds1 := cs.takeWhile Char.isDigit
  let rest1 := cs.drop ds1.length
  if ds1.isEmpty then none
  else
    match rest1 with
    | '.' :: rest2 =>
        let ds2 := rest2.takeWhile Char.isDigit
        if ds2.isEmpty then none
        else if ".webp".toList.isSuffixOf (lowerChars filename) then
          some (ds1 ++ '.' :: ds2).asString
        else none
    | _ => none

/-- The back-side test of `match_images` (src/main.py:165-166):
`" re " in lower_name or lower_name.endswith(" re.webp") or " re." in
lower_name`. -/
def isBack (filename : String) : Bool :=
  let l := lowerChars filename
  hasSub " re ".toList l || " re.webp".toList.isSuffixOf l || hasSub " re.".toList l

/-- The classification rule in the words of the spec (§4.2): a
filename is "back" if, case-insensitively, it contains the token
`" re "` surrounded by spaces, or ends with `" re"` immediately
before the extension (`.webp`), or contains `" re."` as a substring.
Stated for comparison with `isBack`, which is read off the source. -/
def specBackRule (filename : String) : Prop :=
  let l := lowerChars filename
  hasSub " re ".toList l = true
    ∨ (∃ stem : List Char, l = stem ++ ".webp".toList ∧ " re".toList.isSuffixOf stem = true)
    ∨ hasSub " re.".toList l = true

/-- The dictionary built by `match_images`, as a lookup function
(Python dict keyed by identifier strings). -/
def ImagesDict := String → Option ImageEntry

/-- The dictionary before any file is processed (`images_dict = {}`). -/
def emptyImages : ImagesDict := fun _ => none

/-- One iteration of the `for filename in os.listdir(...)` loop of
`match_images`: skip non-matching filenames; otherwise create the
entry if absent and assign the matched side (overwriting any previous
path for that side). -/
def processFile (folder : String) (d : ImagesDict) (filename : String) : ImagesDict :=
  match extractId filename with
  | none => d
  | some coinNo =>
      let e := (d coinNo).getD ⟨none, none⟩
      let e' :=
        if isBack filename then { e with back := some (pathJoin folder filename) }
        else { e with front := some (pathJoin folder filename) }
      fun k => if k = coinNo then some e' else d k

/-- `match_images` over a directory listing (the order of `files` is
the `os.listdir` order).  The function is total: no exception can
escape it. -/
def match_images (folder : String) (files : List String) : ImagesDict :=
  files.foldl (processFile folder) emptyImages

/-- `match_images` including its existence guard
(src/main.py:154-156): when the directory does not exist it calls
`st.error` (modelled by the `Bool` component) and returns the empty
dict.  `dirExists` models `os.path.exists(images_folder)` and `files`
the listing when it exists. -/
def match_images_top (dirExists : Bool) (folder : String) (files : List String) :
    Bool × ImagesDict :=
  if dirExists then (false, match_images folder files) else (true, emptyImages)

/-- Read one side of an entry out of the dict. -/
def sideGet (d : ImagesDict) (coinNo : String) (back : Bool) : Option String :=
  match d coinNo with
  | some e => if back then e.back else e.front
  | none => none

/-! ## Filter engine (`sidebar_filters`, src/main.py:172-224) -/

/-- The widget state consumed by `sidebar_filters`: the selected
ruler, the multiselected metals, the reign-year slider value and the
weight slider value. -/
structure Criteria where
  ruler : String
  metals : List String
  reignRange : Int × Int
  weightRange : ℚ × ℚ
deriving Repr

/-- Lexicographic comparison of character lists by code point, the
order Python uses to compare strings. -/
def charListLe : List Char → List Char → Bool
  | [], _ => true
  | _ :: _, [] => false
  | a :: as, b :: bs => if a = b then charListLe as bs else decide (a.toNat < b.toNat)

/-- String comparison by code point. -/
def strLeB (a b : String) : Bool :=
  charListLe a.toList b.toList

/-- Insertion of a string into a sorted list (`a` placed before the
first element it is `≤`). -/
def insertSorted (a : String) : List String → List String
  | [] => [a]
  | b :: bs => if strLeB a b then a :: b :: bs else b :: insertSorted a bs

/-- Insertion sort on strings, the model of Python `sorted` on
strings: both orders compare code-point-wise. -/
def sortStrings (l : List String) : List String :=
  l.foldr insertSorted []

/-- `sorted(df["Reign"].unique())`.  Pandas `unique` keeps first
occurrences while `List.dedup` keeps last ones; after removing
duplicates of equal strings and sorting, both produce the same
list. -/
def uniqueSorted (l : List String) : List String :=
  sortStrings l.dedup

/-- The `reigns` list of `sidebar_filters` (src/main.py:183). -/
def reignsOf (rs : List Record) : List String :=
  uniqueSorted (rs.map (fun r => r.reign))

/-- The reign strings considered by the year comprehension: those
containing an en-dash (`if '–' in y`). -/
def dashReigns (rs : List Record) : List String :=
  (reignsOf rs).filter (fun y => y.toList.contains '–')

/-- The value of `years = [int(y.split('–')[0]) for y in reigns if '–'
in y]` when no element raises. -/
def yearsList (rs : List Record) : List Int :=
  (dashReigns rs).filterMap (fun y => pyIntChars (firstTok y))

/-- The `years` comprehension including its failure mode: `int` raises
`ValueError` when some en-dash reign has a non-integer first token. -/
def deriveYearsE (rs : List Record) : Except String (List Int) :=
  if (dashReigns rs).all (fun y => (pyIntChars (firstTok y)).isSome) then
    .ok (yearsList rs)
  else .error "ValueError"

/-- `int(x.split('–')[0])` for a record's reign. -/
def reignStartInt (r : Record) : Option Int :=
  pyIntChars (firstTok r.reign)

/-- The predicate of the reign-filter lambda (src/main.py:218):
`selected_years[0] <= int(x.split('–')[0]) <= selected_years[1]`. -/
def reignPred (lo hi : Int) (r : Record) : Bool :=
  match reignStartInt r with
  | some n => decide (lo ≤ n) && decide (n ≤ hi)
  | none => false

/-- `filtered_df["Reign"].apply(lambda x: ...)` used as a boolean
mask: the lambda is evaluated on every remaining row, so a single
reign whose first en-dash token is not an integer raises `ValueError`
out of the whole filter. -/
def applyReignFilter (lo hi : Int) (rs : List Record) : Except String (List Record) :=
  if rs.all (fun r => (reignStartInt r).isSome) then
    .ok (rs.filter (reignPred lo hi))
  else .error "ValueError"

/-- Ruler predicate (src/main.py:209). -/
def rulerPred (c : Criteria) (r : Record) : Bool :=
  decide (r.ruler = c.ruler)

/-- Metal predicate, `isin(selected_metals)` (src/main.py:212). -/
def metalPred (c : Criteria) (r : Record) : Bool :=
  decide (r.metal ∈ c.metals)

/-- Weight predicate (src/main.py:222). -/
def weightPred (c : Criteria) (r : Record) : Bool :=
  decide (c.weightRange.1 ≤ r.weight) && decide (r.weight ≤ c.weightRange.2)

/-- `sidebar_filters` (src/main.py:172-224) for a given widget state.
An empty frame short-circuits to an empty frame.  Otherwise the
`years` comprehension runs first (it is evaluated while building the
slider), then the ruler, metal, reign and weight filters are applied
in the order of the source; the reign filter runs exactly when
`years` is non-empty (`reigns` is non-empty whenever the frame is).
Exceptions escaping the Python function are the `.error` results.
Widget construction itself (slider bounds vs. default values) is
rendering and is not modelled. -/
def sidebar_filters (c : Criteria) (rs : List Record) : Except String (List Record) :=
  if rs.isEmpty then .ok []
  else
    match deriveYearsE rs with
    | .error e => .error e
    | .ok years =>
        let f1 := if c.ruler = "All" then rs else rs.filter (rulerPred c)
        let f2 := if "All" ∈ c.metals then f1 else f1.filter (metalPred c)
        match
          (if years.isEmpty then Except.ok f2
           else applyReignFilter c.reignRange.1 c.reignRange.2 f2) with
        | .error e => .error e
        | .ok f3 => .ok (f3.filter (weightPred c))

/-- Maximum of a list with a default for the empty case (the empty
case never arises where this is used: `max(years)` and
`df["Weight (g)"].max()` are taken on non-empty data). -/
def maxD {α : Type} [LinearOrder α] (dflt : α) : List α → α
  | [] => dflt
  | x :: xs => xs.foldl max x

/-- Minimum of a list with a default for the empty case. -/
def minD {α : Type} [LinearOrder α] (dflt : α) : List α → α
  | [] => dflt
  | x :: xs => xs.foldl min x

/-- The full derived reign range: the slider's
`value=(min_year, max_year)` default (src/main.py:187-195). -/
def fullReignRange (rs : List Record) : Int × Int :=
  (minD 0 (yearsList rs), maxD 0 (yearsList rs))

/-- The weight slider's default `value=(0.0, df["Weight (g)"].max())`
(src/main.py:198-203). -/
def defaultWeightRange (rs : List Record) : ℚ × ℚ :=
  (0, maxD 0 (rs.map (fun r => r.weight)))

/-- The all-sentinel criteria of §8: ruler `"All"`, metals `["All"]`,
reign slider at its full derived range, weight slider at its default
range. -/
def unconstrainedCriteria (rs : List Record) : Criteria :=
  { ruler := "All", metals := ["All"]
    reignRange := fullReignRange rs, weightRange := defaultWeightRange rs }

/-- Helper to build concrete records for concrete evaluations. -/
def mkRec (ruler reign metal : String) (w : ℚ) : Record :=
  { coinNo := "1.1", ruler := ruler, reign := reign, metal := metal
    mint := "Unknown", weight := w, dimension := 0, dateOfIssue := .vStr "Unknown" }

/-! ## Helper lemmas -/

lemma processFile_preserves_side (folder : String) (d : ImagesDict)
    (hinv : ∀ coinNo e, d coinNo = some e → e.front.isSome = true ∨ e.back.isSome = true)
    (f : String) :
    ∀ coinNo e, processFile folder d f coinNo = some e →
      e.front.isSome = true ∨ e.back.isSome = true := by
  intro coinNo e he
  unfold processFile at he
  cases hx : extractId f with
  | none => rw [hx] at he; exact hinv _ _ he
  | some cid =>
      rw [hx] at he
      dsimp only at he
      by_cases hk : coinNo = cid
      · rw [if_pos hk] at he
        cases he
        by_cases hb : isBack f
        · rw [if_pos hb]; right; rfl
        · rw [if_neg hb]; left; rfl
      · rw [if_neg hk] at he
        exact hinv _ _ he

lemma foldl_preserves_side (folder : String) :
    ∀ (files : List String) (d : ImagesDict),
      (∀ coinNo e, d coinNo = some e → e.front.isSome = true ∨ e.back.isSome = true) →
      ∀ coinNo e, files.foldl (processFile folder) d coinNo = some e →
        e.front.isSome = true ∨ e.back.isSome = true := by
  intro files
  induction files with
  | nil => intro d hinv; exact hinv
  | cons f fs ih =>
      intro d hinv
      exact ih _ (processFile_preserves_side folder d hinv f)

/-! ## Claim theorems -/

/-- C1: the claim says `sidebar_filters` raises no error on any record
set.  The reign-range mask (src/main.py:216-220) applies
`int(x.split('–')[0])` to every remaining record, including records
whose `Reign` has no en-dash; with reigns `"1250–1270"` and
`"Unknown"` the derivation succeeds (the en-dash guard is applied
there) but the mask evaluates `int("Unknown")`, which raises
`ValueError`.  This evaluates the embedded code at that failing
input. -/
theorem c1_reignFilter_raises_on_mixed_reigns :
    sidebar_filters ⟨"All", ["All"], (1250, 1270), (0, 10)⟩
      [mkRec "A" "1250–1270" "Gold" 1, mkRec "B" "Unknown" "Gold" 1] =
      .error "ValueError" := by rfl

/-- C4 (counterexample): the claim says non-numeric Date-of-Issue
values pass through unchanged; `convert_to_gregorian` returns the
literal `"Unknown"` for them instead (src/main.py:125-126). -/
theorem c4_nonnumeric_becomes_unknown :
    convert_to_gregorian (.vStr "circa 1200") = .vStr "Unknown" ∧
      PyVal.vStr "Unknown" ≠ PyVal.vStr "circa 1200" := by
  exact ⟨rfl, by decide⟩

/-- C4 (amended): `convert_to_gregorian` adds 622 to integer-like
values below 1202 and keeps integer values at or above 1202; a string
that parses as an integer is replaced by that integer (then converted
the same way); a value that fails integer parsing becomes the string
`"Unknown"`.  In particular 1100 normalizes to 1722 and 1250 stays
1250. -/
theorem c4_calendar_conversion_amended :
    convert_to_gregorian (.vInt 1100) = .vInt 1722 ∧
    convert_to_gregorian (.vInt 1250) = .vInt 1250 ∧
    (∀ n : Int, n < 1202 → convert_to_gregorian (.vInt n) = .vInt (n + 622)) ∧
    (∀ n : Int, 1202 ≤ n → convert_to_gregorian (.vInt n) = .vInt n) ∧
    (∀ s : String, pyIntOfString s = none →
      convert_to_gregorian (.vStr s) = .vStr "Unknown") ∧
    (∀ s : String, ∀ n : Int, pyIntOfString s = some n →
      convert_to_gregorian (.vStr s) = convert_to_gregorian (.vInt n)) := by
  refine ⟨rfl, rfl, ?_, ?_, ?_, ?_⟩
  · intro n hn
    simp [convert_to_gregorian, pyIntOfVal, hn]
  · intro n hn
    simp [convert_to_gregorian, pyIntOfVal, not_lt.mpr hn]
  · intro s hs
    simp [convert_to_gregorian, pyIntOfVal, pyIntOfString] at hs ⊢
    rw [hs]
  · intro s n hs
    simp [convert_to_gregorian, pyIntOfVal, pyIntOfString] at hs ⊢
    rw [hs]

/-- C4 (witness): the amended theorem applied at the concrete year
600, which is below the 1202 threshold. -/
theorem c4_calendar_conversion_witness :
    convert_to_gregorian (.vInt 600) = .vInt 1222 :=
  c4_calendar_conversion_amended.2.2.1 600 (by decide)

/-- C6: when two filenames map to the same identifier and the same
side, the later one in the directory listing silently overwrites the
earlier one: after the scan, that side of the entry holds the path of
the later file, whatever was stored before.  The embedded
`match_images` is a total function, so no error is raised. -/
theorem c6_last_write_wins (folder : String) (pre mid : List String)
    (f1 f2 coinNo : String)
    (h1 : extractId f1 = some coinNo) (h2 : extractId f2 = some coinNo)
    (hside : isBack f1 = isBack f2) :
    sideGet (match_images folder (pre ++ f1 :: mid ++ [f2])) coinNo (isBack f2) =
      some (pathJoin folder f2) := by
  unfold match_images
  rw [show pre ++ f1 :: mid ++ [f2] = (pre ++ f1 :: mid) ++ [f2] by simp,
    List.foldl_append]
  simp only [List.foldl_cons, List.foldl_nil]
  unfold processFile
  rw [h2]
  unfold sideGet
  by_cases hb : isBack f2 <;> simp [hb]

/-- C6 (witness): two front-side files for identifier `"1.1"`; the
second listing entry wins. -/
theorem c6_last_write_wins_witness :
    sideGet (match_images "d" ["1.1 a.webp", "1.1 b.webp"]) "1.1" false =
      some "d/1.1 b.webp" :=
  c6_last_write_wins "d" [] [] "1.1 a.webp" "1.1 b.webp" "1.1" (by rfl) (by rfl) (by rfl)

/-- C7: when the image directory does not exist, `match_images`
reports an error (the flag component models the `st.error` call) and
returns the empty mapping; the embedded function is total, so nothing
is raised past this boundary. -/
theorem c7_missing_dir_empty (folder : String) (files : List String) :
    (match_images_top false folder files).1 = true ∧
      ∀ coinNo, (match_images_top false folder files).2 coinNo = none :=
  ⟨rfl, fun _ => rfl⟩

/-- C10: every identifier present in the mapping built by
`match_images` has at least one of its front/back paths set: an entry
is created only when a filename matches, and that filename's side is
assigned in the same loop iteration. -/
theorem c10_entry_has_some_side (folder : String) (files : List String) :
    ∀ coinNo e, match_images folder files coinNo = some e →
      e.front.isSome = true ∨ e.back.isSome = true :=
  foldl_preserves_side folder files emptyImages (fun _ e h => by cases h)

/-- C10 (witness): the theorem applied to a one-file listing. -/
theorem c10_entry_has_some_side_witness :
    (ImageEntry.mk (some "d/1.1 a.webp") none).front.isSome = true ∨
      (ImageEntry.mk (some "d/1.1 a.webp") none).back.isSome = true :=
  c10_entry_has_some_side "d" ["1.1 a.webp"] "1.1" ⟨some "d/1.1 a.webp", none⟩ (by rfl)

lemma suffixOf_append_iff (s1 s2 l : List Char) :
    (s1 ++ s2).isSuffixOf l = true ↔
      ∃ stem, l = stem ++ s2 ∧ s1.isSuffixOf stem = true := by
  simp only [List.isSuffixOf_iff_suffix]
  constructor
  · rintro ⟨t, rfl⟩
    exact ⟨t ++ s1, by simp, List.suffix_append t s1⟩
  · rintro ⟨stem, rfl, ⟨u, rfl⟩⟩
    exact ⟨u, by simp⟩

/-- C2 (counterexample): the claim classifies `"12.3-Foo-re-back.webp"`
as "back", but the hyphen-separated `re` has no surrounding spaces, no
`" re."` substring and no `" re"` before the extension, so the code
classifies it as "front". -/
theorem c2_hyphenated_re_is_front :
    extractId "12.3-Foo-re-back.webp" = some "12.3" ∧
      isBack "12.3-Foo-re-back.webp" = false :=
  ⟨rfl, rfl⟩

/-- C2 (amended): a filename accepted by the indexer is classified as
"back" exactly when, case-insensitively, it contains `" re "`
surrounded by spaces, or ends with `" re"` immediately before the
`.webp` extension, or contains `" re."` as a substring; in
particular `"12.3 Foo re.webp"` and `"12.3 Foo RE .webp"` are "back"
under identifier `"12.3"`, while `"12.3-Foo-re-back.webp"` (no
space-delimited token) and `"12.3 Foo.webp"` are "front". -/
theorem c2_back_classification :
    (∀ f coinNo, extractId f = some coinNo → (isBack f = true ↔ specBackRule f)) ∧
    extractId "12.3 Foo re.webp" = some "12.3" ∧ isBack "12.3 Foo re.webp" = true ∧
    extractId "12.3 Foo RE .webp" = some "12.3" ∧ isBack "12.3 Foo RE .webp" = true ∧
    extractId "12.3-Foo-re-back.webp" = some "12.3" ∧
      isBack "12.3-Foo-re-back.webp" = false ∧
    extractId "12.3 Foo.webp" = some "12.3" ∧ isBack "12.3 Foo.webp" = false := by
  refine ⟨?_, rfl, rfl, rfl, rfl, rfl, rfl, rfl, rfl⟩
  intro f coinNo _
  have hsplit : (" re.webp" : String).toList = " re".toList ++ ".webp".toList := rfl
  simp only [isBack, specBackRule, Bool.or_eq_true]
  rw [hsplit, suffixOf_append_iff, or_assoc]

/-- C2 (witness): the amended equivalence applied to the accepted
filename `"12.3 Foo re.webp"`. -/
theorem c2_back_classification_witness :
    isBack "12.3 Foo re.webp" = true ↔ specBackRule "12.3 Foo re.webp" :=
  c2_back_classification.1 "12.3 Foo re.webp" "12.3" (by rfl)

/-- C5: when the reign filter runs without raising, a record whose
reign has an en-dash and whose first token parses to `n` is kept
exactly when `n` lies within the inclusive slider bounds. -/
theorem c5_reignRange_membership (lo hi : Int) (rs out : List Record)
    (r : Record) (n : Int)
    (hok : applyReignFilter lo hi rs = .ok out) (hr : r ∈ rs)
    (hdash : r.reign.toList.contains '–' = true)
    (hn : reignStartInt r = some n) :
    r ∈ out ↔ (lo ≤ n ∧ n ≤ hi) := by
  unfold applyReignFilter at hok
  split at hok
  · cases hok
    rw [List.mem_filter]
    unfold reignPred
    rw [hn]
    simp [hr]
  · cases hok

/-- C5 (witness): with selected range (1260, 1300), the record with
reign `"1250–1270"` is excluded and the record with reign
`"1265–1280"` is included. -/
theorem c5_reignRange_witness :
    (mkRec "B" "1265–1280" "Gold" 1 ∈ [mkRec "B" "1265–1280" "Gold" 1] ↔
      ((1260 : Int) ≤ 1265 ∧ (1265 : Int) ≤ 1300)) ∧
    (mkRec "A" "1250–1270" "Gold" 1 ∈ [mkRec "B" "1265–1280" "Gold" 1] ↔
      ((1260 : Int) ≤ 1250 ∧ (1250 : Int) ≤ 1300)) :=
  ⟨c5_reignRange_membership 1260 1300
      [mkRec "A" "1250–1270" "Gold" 1, mkRec "B" "1265–1280" "Gold" 1]
      [mkRec "B" "1265–1280" "Gold" 1] (mkRec "B" "1265–1280" "Gold" 1) 1265
      (by rfl) (by decide) (by decide) (by rfl),
   c5_reignRange_membership 1260 1300
      [mkRec "A" "1250–1270" "Gold" 1, mkRec "B" "1265–1280" "Gold" 1]
      [mkRec "B" "1265–1280" "Gold" 1] (mkRec "A" "1250–1270" "Gold" 1) 1250
      (by rfl) (by decide) (by decide) (by rfl)⟩

/-- C8 (counterexample): the claim says Date of Issue after load is
"the original value or the literal string Unknown"; a row with Date
of Issue `"1100"` loads to the converted value `1722`, which is
neither. -/
theorem c8_date_conversion_breaks_original :
    (load_row { coinNo := "1.1", ruler := some "A", reign := some "1250–1270",
                metal := some "Gold", mint := none, weight := some "10.35",
                dimension := none, date := some (.vStr "1100") }).dateOfIssue =
        .vInt 1722 ∧
    PyVal.vInt 1722 ≠ .vStr "1100" ∧ PyVal.vInt 1722 ≠ .vStr "Unknown" :=
  ⟨rfl, by decide, by decide⟩

/-- C8 (amended): after `load_data`, Weight and Dimension are numeric
— the parsed value, or 0 when the cell is missing or unparsable; the
fields Ruler, Reign, Metal and Mint are never null — the original
value, or `"Unknown"` when missing; Date of Issue is never null — the
calendar normalization (`convert_to_gregorian`) of its
original-or-`"Unknown"` value. -/
theorem c8_load_invariants_amended :
    (∀ rows : List RawRow, load_data rows = rows.map load_row) ∧
    (∀ raw : RawRow,
      ((∃ s, raw.ruler = some s ∧ (load_row raw).ruler = s) ∨
        (raw.ruler = none ∧ (load_row raw).ruler = "Unknown")) ∧
      ((∃ s, raw.reign = some s ∧ (load_row raw).reign = s) ∨
        (raw.reign = none ∧ (load_row raw).reign = "Unknown")) ∧
      ((∃ s, raw.metal = some s ∧ (load_row raw).metal = s) ∨
        (raw.metal = none ∧ (load_row raw).metal = "Unknown")) ∧
      ((∃ s, raw.mint = some s ∧ (load_row raw).mint = s) ∨
        (raw.mint = none ∧ (load_row raw).mint = "Unknown")) ∧
      ((load_row raw).dateOfIssue =
        convert_to_gregorian (raw.date.getD (.vStr "Unknown"))) ∧
      ((∃ s q, raw.weight = some s ∧ parseNum s = some q ∧ (load_row raw).weight = q) ∨
        (load_row raw).weight = 0) ∧
      ((∃ s q, raw.dimension = some s ∧ parseNum s = some q ∧
          (load_row raw).dimension = q) ∨
        (load_row raw).dimension = 0)) := by
  refine ⟨fun _ => rfl, fun raw => ⟨?_, ?_, ?_, ?_, rfl, ?_, ?_⟩⟩
  · cases h : raw.ruler with
    | none => exact Or.inr ⟨rfl, by simp [load_row, h]⟩
    | some s => exact Or.inl ⟨s, rfl, by simp [load_row, h]⟩
  · cases h : raw.reign with
    | none => exact Or.inr ⟨rfl, by simp [load_row, h]⟩
    | some s => exact Or.inl ⟨s, rfl, by simp [load_row, h]⟩
  · cases h : raw.metal with
    | none => exact Or.inr ⟨rfl, by simp [load_row, h]⟩
    | some s => exact Or.inl ⟨s, rfl, by simp [load_row, h]⟩
  · cases h : raw.mint with
    | none => exact Or.inr ⟨rfl, by simp [load_row, h]⟩
    | some s => exact Or.inl ⟨s, rfl, by simp [load_row, h]⟩
  · cases h : raw.weight with
    | none => exact Or.inr (by simp [load_row, h])
    | some s =>
        cases hq : parseNum s with
        | none => exact Or.inr (by simp [load_row, h, hq])
        | some q => exact Or.inl ⟨s, q, rfl, hq, by simp [load_row, h, hq]⟩
  · cases h : raw.dimension with
    | none => exact Or.inr (by simp [load_row, h])
    | some s =>
        cases hq : parseNum s with
        | none => exact Or.inr (by simp [load_row, h, hq])
        | some q => exact Or.inl ⟨s, q, rfl, hq, by simp [load_row, h, hq]⟩

lemma mem_insertSorted (a y : String) (l : List String) :
    y ∈ insertSorted a l ↔ y = a ∨ y ∈ l := by
  induction l with
  | nil => simp [insertSorted]
  | cons b bs ih =>
      unfold insertSorted
      split
      · simp
      · simp only [List.mem_cons, ih]
        tauto

lemma mem_sortStrings (y : String) (l : List String) :
    y ∈ sortStrings l ↔ y ∈ l := by
  induction l with
  | nil => simp [sortStrings]
  | cons b bs ih =>
      show y ∈ insertSorted b (sortStrings bs) ↔ _
      rw [mem_insertSorted, ih]
      simp

lemma mem_uniqueSorted (y : String) (l : List String) :
    y ∈ uniqueSorted l ↔ y ∈ l := by
  rw [uniqueSorted, mem_sortStrings, List.mem_dedup]

lemma mem_dashReigns (y : String) (rs : List Record) :
    y ∈ dashReigns rs ↔
      (∃ r ∈ rs, r.reign = y) ∧ y.toList.contains '–' = true := by
  rw [dashReigns, List.mem_filter, reignsOf, mem_uniqueSorted]
  simp

lemma mem_yearsList (n : Int) (rs : List Record) :
    n ∈ yearsList rs ↔
      ∃ y ∈ dashReigns rs, pyIntChars (firstTok y) = some n := by
  rw [yearsList, List.mem_filterMap]

lemma deriveYearsE_ok_iff (rs : List Record) (ys : List Int) :
    deriveYearsE rs = .ok ys ↔
      ((dashReigns rs).all (fun y => (pyIntChars (firstTok y)).isSome) = true ∧
        ys = yearsList rs) := by
  unfold deriveYearsE
  split
  · rename_i h
    exact ⟨fun he => ⟨h, (Except.ok.inj he).symm⟩, fun hy => by rw [hy.2]⟩
  · rename_i h
    exact ⟨fun he => (nomatch he), fun hy => absurd hy.1 h⟩

lemma applyReignFilter_ok_iff (lo hi : Int) (rs out : List Record) :
    applyReignFilter lo hi rs = .ok out ↔
      (rs.all (fun r => (reignStartInt r).isSome) = true ∧
        out = rs.filter (reignPred lo hi)) := by
  unfold applyReignFilter
  split
  · rename_i h
    exact ⟨fun he => ⟨h, (Except.ok.inj he).symm⟩, fun hy => by rw [hy.2]⟩
  · rename_i h
    exact ⟨fun he => (nomatch he), fun hy => absurd hy.1 h⟩

lemma le_foldl_max {α : Type} [LinearOrder α] (l : List α) :
    ∀ a : α, a ≤ l.foldl max a := by
  induction l with
  | nil => intro a; simp
  | cons x xs ih =>
      intro a
      rw [List.foldl_cons]
      exact le_trans (le_max_left a x) (ih (max a x))

lemma mem_le_foldl_max {α : Type} [LinearOrder α] (l : List α) :
    ∀ a b : α, b ∈ l → b ≤ l.foldl max a := by
  induction l with
  | nil => intro a b hb; cases hb
  | cons x xs ih =>
      intro a b hb
      rw [List.foldl_cons]
      rcases List.mem_cons.mp hb with rfl | hbt
      · exact le_trans (le_max_right a b) (le_foldl_max xs (max a b))
      · exact ih (max a x) b hbt

lemma le_maxD {α : Type} [LinearOrder α] (d : α) (l : List α) (b : α)
    (hb : b ∈ l) : b ≤ maxD d l := by
  cases l with
  | nil => cases hb
  | cons x xs =>
      rcases List.mem_cons.mp hb with rfl | hbt
      · exact le_foldl_max xs b
      · exact mem_le_foldl_max xs x b hbt

lemma foldl_min_le {α : Type} [LinearOrder α] (l : List α) :
    ∀ a : α, l.foldl min a ≤ a := by
  induction l with
  | nil => intro a; simp
  | cons x xs ih =>
      intro a
      rw [List.foldl_cons]
      exact le_trans (ih (min a x)) (min_le_left a x)

lemma foldl_min_le_mem {α : Type} [LinearOrder α] (l : List α) :
    ∀ a b : α, b ∈ l → l.foldl min a ≤ b := by
  induction l with
  | nil => intro a b hb; cases hb
  | cons x xs ih =>
      intro a b hb
      rw [List.foldl_cons]
      rcases List.mem_cons.mp hb with rfl | hbt
      · exact le_trans (foldl_min_le xs (min a b)) (min_le_right a b)
      · exact ih (min a x) b hbt

lemma minD_le {α : Type} [LinearOrder α] (d : α) (l : List α) (b : α)
    (hb : b ∈ l) : minD d l ≤ b := by
  cases l with
  | nil => cases hb
  | cons x xs =>
      rcases List.mem_cons.mp hb with rfl | hbt
      · exact foldl_min_le xs b
      · exact foldl_min_le_mem xs x b hbt

lemma sidebar_filters_fix (c : Criteria) (out : List Record)
    (hder : (dashReigns out).all (fun y => (pyIntChars (firstTok y)).isSome) = true)
    (hruler : c.ruler ≠ "All" → ∀ r ∈ out, rulerPred c r = true)
    (hmetal : "All" ∉ c.metals → ∀ r ∈ out, metalPred c r = true)
    (hreign : ¬ (yearsList out).isEmpty = true →
      (∀ r ∈ out, (reignStartInt r).isSome = true) ∧
        (∀ r ∈ out, reignPred c.reignRange.1 c.reignRange.2 r = true))
    (hweight : ∀ r ∈ out, weightPred c r = true) :
    sidebar_filters c out = .ok out := by
  by_cases hout : out.isEmpty = true
  · unfold sidebar_filters
    rw [if_pos hout, List.isEmpty_iff.mp hout]
  · unfold sidebar_filters
    rw [if_neg hout]
    have hder' : deriveYearsE out = .ok (yearsList out) := by
      unfold deriveYearsE
      rw [if_pos hder]
    rw [hder']
    dsimp only
    have hf1 : (if c.ruler = "All" then out else out.filter (rulerPred c)) = out := by
      split
      · rfl
      · rename_i hne
        exact List.filter_eq_self.mpr (hruler hne)
    have hf2 : (if "All" ∈ c.metals then out else out.filter (metalPred c)) = out := by
      split
      · rfl
      · rename_i hnm
        exact List.filter_eq_self.mpr (hmetal hnm)
    rw [hf1, hf2]
    by_cases hy : (yearsList out).isEmpty = true
    · rw [if_pos hy]
      dsimp only
      rw [List.filter_eq_self.mpr hweight]
    · rw [if_neg hy]
      obtain ⟨hall, hpred⟩ := hreign hy
      have har : applyReignFilter c.reignRange.1 c.reignRange.2 out =
          .ok (out.filter (reignPred c.reignRange.1 c.reignRange.2)) := by
        unfold applyReignFilter
        rw [if_pos (List.all_eq_true.mpr hall)]
      rw [har, List.filter_eq_self.mpr hpred]
      dsimp only
      rw [List.filter_eq_self.mpr hweight]

lemma sidebar_filters_ok_anatomy (c : Criteria) (rs out : List Record)
    (hrs : ¬ rs.isEmpty = true)
    (h : sidebar_filters c rs = .ok out) :
    ∃ f1 f2 f3,
      f1 = (if c.ruler = "All" then rs else rs.filter (rulerPred c)) ∧
      f2 = (if "All" ∈ c.metals then f1 else f1.filter (metalPred c)) ∧
      (dashReigns rs).all (fun y => (pyIntChars (firstTok y)).isSome) = true ∧
      (((yearsList rs).isEmpty = true ∧ f3 = f2) ∨
        ((yearsList rs).isEmpty = false ∧
          (∀ r ∈ f2, (reignStartInt r).isSome = true) ∧
          f3 = f2.filter (reignPred c.reignRange.1 c.reignRange.2))) ∧
      out = f3.filter (weightPred c) := by
  unfold sidebar_filters at h
  rw [if_neg hrs] at h
  cases hder : deriveYearsE rs with
  | error e => rw [hder] at h; exact (nomatch h)
  | ok years =>
      rw [hder] at h
      dsimp only at h
      obtain ⟨hall, hyeq⟩ := (deriveYearsE_ok_iff rs years).mp hder
      subst hyeq
      by_cases hy : (yearsList rs).isEmpty = true
      · rw [if_pos hy] at h
        dsimp only at h
        exact ⟨_, _, _, rfl, rfl, hall, Or.inl ⟨hy, rfl⟩, (Except.ok.inj h).symm⟩
      · rw [if_neg hy] at h
        cases har : applyReignFilter c.reignRange.1 c.reignRange.2
            (if "All" ∈ c.metals then
              (if c.ruler = "All" then rs else rs.filter (rulerPred c))
            else
              (if c.ruler = "All" then rs else rs.filter (rulerPred c)).filter
                (metalPred c)) with
        | error e => rw [har] at h; exact (nomatch h)
        | ok f3 =>
            rw [har] at h
            dsimp only at h
            obtain ⟨hallr, hf3⟩ := (applyReignFilter_ok_iff _ _ _ _).mp har
            refine ⟨_, _, f3, rfl, rfl, hall,
              Or.inr ⟨?_, List.all_eq_true.mp hallr, hf3⟩, (Except.ok.inj h).symm⟩
            simpa using hy

/-- C3 (counterexample): with reigns `"1250"` (no en-dash) and
`"1300–1310"`, the derived year set is `[1300]`, so the reign filter
runs at its full derived range (1300, 1300); the record with reign
`"1250"` still has its first split token parsed (`1250`), falls
outside the range and is dropped, so the all-sentinel filter is not
the identity. -/
theorem c3_unconstrained_not_identity :
    sidebar_filters
        (unconstrainedCriteria
          [mkRec "A" "1250" "Gold" 1, mkRec "B" "1300–1310" "Gold" 2])
        [mkRec "A" "1250" "Gold" 1, mkRec "B" "1300–1310" "Gold" 2] =
      .ok [mkRec "B" "1300–1310" "Gold" 2] ∧
    [mkRec "B" "1300–1310" "Gold" 2] ≠
      [mkRec "A" "1250" "Gold" 1, mkRec "B" "1300–1310" "Gold" 2] :=
  ⟨rfl, by decide⟩

/-- C3 (amended): for every non-empty record set in which every
weight is nonnegative and either no reign contains an en-dash or
every reign contains an en-dash with an integer-parseable first
token, filtering with all sentinels unconstrained (ruler `"All"`,
metals `["All"]`, reign slider at its full derived range, weight
slider at its default range) returns the full input set unchanged in
order and content. -/
theorem c3_unconstrained_identity_amended (rs : List Record) (hne : rs ≠ [])
    (hw : ∀ r ∈ rs, 0 ≤ r.weight)
    (hd : (∀ r ∈ rs, r.reign.toList.contains '–' = false) ∨
          (∀ r ∈ rs, r.reign.toList.contains '–' = true ∧
            (reignStartInt r).isSome = true)) :
    sidebar_filters (unconstrainedCriteria rs) rs = .ok rs := by
  apply sidebar_filters_fix
  · rw [List.all_eq_true]
    intro y hy
    rw [mem_dashReigns] at hy
    obtain ⟨⟨r, hr, rfl⟩, hdash⟩ := hy
    rcases hd with hnone | hall
    · rw [hnone r hr] at hdash
      cases hdash
    · exact (hall r hr).2
  · intro hcon
    exact absurd rfl hcon
  · intro hcon
    exact absurd (by simp [unconstrainedCriteria]) hcon
  · intro hy
    rcases hd with hnone | hall
    · exfalso
      apply hy
      have hdnil : dashReigns rs = [] := by
        rw [List.eq_nil_iff_forall_not_mem]
        intro y hy'
        rw [mem_dashReigns] at hy'
        obtain ⟨⟨r, hr, rfl⟩, hdash⟩ := hy'
        rw [hnone r hr] at hdash
        cases hdash
      rw [show yearsList rs = [] from by rw [yearsList, hdnil]; rfl]
      rfl
    · constructor
      · intro r hr
        exact (hall r hr).2
      · intro r hr
        obtain ⟨hdash, hsome⟩ := hall r hr
        obtain ⟨n, hn⟩ := Option.isSome_iff_exists.mp hsome
        have hmem : n ∈ yearsList rs := by
          rw [mem_yearsList]
          exact ⟨r.reign, (mem_dashReigns _ _).mpr ⟨⟨r, hr, rfl⟩, hdash⟩, hn⟩
        unfold reignPred
        rw [hn]
        simp only [unconstrainedCriteria, fullReignRange, Bool.and_eq_true,
          decide_eq_true_eq]
        exact ⟨minD_le _ _ _ hmem, le_maxD _ _ _ hmem⟩
  · intro r hr
    unfold weightPred
    simp only [unconstrainedCriteria, defaultWeightRange, Bool.and_eq_true,
      decide_eq_true_eq]
    exact ⟨hw r hr, le_maxD _ _ _ (List.mem_map.mpr ⟨r, hr, rfl⟩)⟩

/-- C3 (witness): a one-record set with reign `"Unknown"` and weight 1
passes the amended theorem's hypotheses and is returned unchanged. -/
theorem c3_unconstrained_identity_witness :
    sidebar_filters (unconstrainedCriteria [mkRec "A" "Unknown" "Gold" 1])
        [mkRec "A" "Unknown" "Gold" 1] =
      .ok [mkRec "A" "Unknown" "Gold" 1] :=
  c3_unconstrained_identity_amended [mkRec "A" "Unknown" "Gold" 1] (by decide)
    (by decide) (Or.inl (by decide))

/-- C9: filtering is idempotent — if `sidebar_filters` succeeds on a
record set, applying it again with the same criteria to the output
returns the output unchanged (all surviving records still pass every
selected filter, and the reign filter either re-applies with the same
bounds or is skipped because no surviving reign carries an
en-dash). -/
theorem c9_filter_idempotent (c : Criteria) (rs out : List Record)
    (h : sidebar_filters c rs = .ok out) :
    sidebar_filters c out = .ok out := by
  by_cases hrs : rs.isEmpty = true
  · unfold sidebar_filters at h
    rw [if_pos hrs] at h
    have hnil : out = [] := (Except.ok.inj h).symm
    subst hnil
    rfl
  · obtain ⟨f1, f2, f3, hf1, hf2, hall, hre, hout⟩ :=
      sidebar_filters_ok_anatomy c rs out hrs h
    have hmem3 : ∀ r ∈ out, r ∈ f3 := by
      intro r hr
      rw [hout] at hr
      exact (List.mem_filter.mp hr).1
    have hwp : ∀ r ∈ out, weightPred c r = true := by
      intro r hr
      rw [hout] at hr
      exact (List.mem_filter.mp hr).2
    have hmem2 : ∀ r ∈ out, r ∈ f2 := by
      intro r hr
      have h3 := hmem3 r hr
      rcases hre with ⟨_, hf3⟩ | ⟨_, _, hf3⟩
      · rwa [hf3] at h3
      · rw [hf3] at h3
        exact (List.mem_filter.mp h3).1
    have hmem1 : ∀ r ∈ out, r ∈ f1 := by
      intro r hr
      have h2 := hmem2 r hr
      rw [hf2] at h2
      split at h2
      · exact h2
      · exact (List.mem_filter.mp h2).1
    have hmemrs : ∀ r ∈ out, r ∈ rs := by
      intro r hr
      have h1 := hmem1 r hr
      rw [hf1] at h1
      split at h1
      · exact h1
      · exact (List.mem_filter.mp h1).1
    have hallout :
        (dashReigns out).all (fun y => (pyIntChars (firstTok y)).isSome) = true := by
      rw [List.all_eq_true]
      intro y hy
      rw [mem_dashReigns] at hy
      obtain ⟨⟨r, hr, rfl⟩, hdash⟩ := hy
      exact List.all_eq_true.mp hall _
        ((mem_dashReigns _ _).mpr ⟨⟨r, hmemrs r hr, rfl⟩, hdash⟩)
    apply sidebar_filters_fix c out hallout
    · intro hne r hr
      have h1 := hmem1 r hr
      rw [hf1, if_neg hne] at h1
      exact (List.mem_filter.mp h1).2
    · intro hnm r hr
      have h2 := hmem2 r hr
      rw [hf2, if_neg hnm] at h2
      exact (List.mem_filter.mp h2).2
    · intro hyout
      have hex : ∃ n, n ∈ yearsList out := by
        cases hcase : yearsList out with
        | nil => exact (hyout (by rw [hcase]; rfl)).elim
        | cons m ns => exact ⟨m, List.mem_cons_self _ _⟩
      obtain ⟨n, hn⟩ := hex
      rw [mem_yearsList] at hn
      obtain ⟨y, hydash, hyparse⟩ := hn
      rw [mem_dashReigns] at hydash
      obtain ⟨⟨r0, hr0, rfl⟩, hdash0⟩ := hydash
      have hrs_ne : (yearsList rs).isEmpty = false := by
        have hm : n ∈ yearsList rs := by
          rw [mem_yearsList]
          exact ⟨r0.reign,
            (mem_dashReigns _ _).mpr ⟨⟨r0, hmemrs r0 hr0, rfl⟩, hdash0⟩, hyparse⟩
        cases hc : yearsList rs with
        | nil => rw [hc] at hm; cases hm
        | cons a as => rfl
      rcases hre with ⟨hemp, _⟩ | ⟨_, hallf2, hf3⟩
      · rw [hemp] at hrs_ne
        cases hrs_ne
      · constructor
        · intro r hr
          exact hallf2 r (hmem2 r hr)
        · intro r hr
          have h3 := hmem3 r hr
          rw [hf3] at h3
          exact (List.mem_filter.mp h3).2
    · exact hwp

/-- C9 (witness): the first run drops the record with reign
`"1250–1270"`; re-filtering the surviving record returns it
unchanged. -/
theorem c9_filter_idempotent_witness :
    sidebar_filters ⟨"All", ["All"], (1260, 1300), (0, 5)⟩
        [mkRec "B" "1265–1280" "Gold" 2] =
      .ok [mkRec "B" "1265–1280" "Gold" 2] :=
  c9_filter_idempotent ⟨"All", ["All"], (1260, 1300), (0, 5)⟩
    [mkRec "A" "1250–1270" "Gold" 1, mkRec "B" "1265–1280" "Gold" 2]
    [mkRec "B" "1265–1280" "Gold" 2] (by rfl)
